import Mathlib

/- Shallow embedding of the kanban-fs extension core (src/extension.ts):
Card Parser (parseMarkdown), Board Builder (buildBoard / readCards),
Move Executor (moveCard) and the webview message handler's moveCard branch.
Uri values are modelled as plain path strings: Uri.parse keeps the string,
Uri.joinPath appends one segment, joinPath with ".." drops the last segment,
and toString is the identity. -/

namespace KanbanFS

/-- Whitespace class used by the JS string functions involved here
(String.prototype.trim and the regex class backslash-s). -/
def isJsWhitespace (c : Char) : Bool :=
  c == ' ' || c == '\t' || c == '\n' || c == '\r' || c == '\x0b' || c == '\x0c' ||
    c == '\u00A0' || c == '\uFEFF'

/-- Embeds content.split over the line-break regex: a split happens at each
LF or CRLF; a lone CR is not a separator. -/
def splitLinesAux : List Char → List Char → List String
  | [], acc => [⟨acc.reverse⟩]
  | '\r' :: '\n' :: rest, acc => ⟨acc.reverse⟩ :: splitLinesAux rest []
  | '\n' :: rest, acc => ⟨acc.reverse⟩ :: splitLinesAux rest []
  | c :: rest, acc => splitLinesAux rest (c :: acc)

def splitLines (s : String) : List String := splitLinesAux s.data []

/-- JS String.prototype.split with a one-character separator (the only kind
used here: slash for paths, comma for tag lists). -/
def splitOnCharAux (sep : Char) : List Char → List Char → List String
  | [], acc => [⟨acc.reverse⟩]
  | c :: rest, acc =>
    if c = sep then ⟨acc.reverse⟩ :: splitOnCharAux sep rest []
    else splitOnCharAux sep rest (c :: acc)

def splitOnChar (sep : Char) (s : String) : List String := splitOnCharAux sep s.data []

/-- JS String.prototype.trim. -/
def jsTrim (s : String) : String :=
  ⟨((s.data.dropWhile isJsWhitespace).reverse.dropWhile isJsWhitespace).reverse⟩

/-- The lowercased string ends with ".md" (toLowerCase then endsWith; the
names this is applied to use the ASCII case mapping). -/
def lowerEndsWithMd (s : String) : Bool :=
  ((s.data.map Char.toLower).reverse.take 3) == ['d', 'm', '.']

/-- Embeds fallbackTitle.replace over the case-insensitive anchored ".md" suffix
pattern: removes a trailing ".md" or ".MD" (any case), if present. -/
def stripMdExt (s : String) : String :=
  if lowerEndsWithMd s then ⟨s.data.take (s.data.length - 3)⟩ else s

/-- The heading test of the parser loop: the line, after trimming,
starts with hash-space. -/
def headingB (l : String) : Bool :=
  match (jsTrim l).data with
  | '#' :: ' ' :: _ => true
  | _ => false

/-- For a line passing headingB: trim, strip the leading hash and the maximal
whitespace run after it (the anchored hash-whitespace replace), then trim. -/
def headingTitleOf (l : String) : String :=
  jsTrim ⟨((jsTrim l).data.drop 1).dropWhile isJsWhitespace⟩

/-- The heading-search loop: first line whose trimmed form starts with
hash-space; returns (index after that line, processed title text). -/
def findHeading : List String → Option (Nat × String)
  | [] => none
  | l :: rest =>
    if headingB l then some (1, headingTitleOf l)
    else
      match findHeading rest with
      | some (bs, t) => some (bs + 1, t)
      | none => none

/-- Embeds line.match against the anchored case-insensitive tags-colon pattern
(tags, optional whitespace, colon, optional whitespace, then a nonempty
remainder captured greedily: the whitespace consumes as much as it can while
leaving at least one character for the capture). Returns the capture. -/
def tagMatch (line : String) : Option String :=
  match line.data with
  | t :: a :: g :: s :: rest =>
    if (t == 'T' || t == 't') && (a == 'A' || a == 'a') && (g == 'G' || g == 'g') &&
        (s == 'S' || s == 's') then
      match rest.dropWhile isJsWhitespace with
      | ':' :: rest2 =>
        match rest2 with
        | [] => none
        | _ :: _ =>
          let p := (rest2.takeWhile isJsWhitespace).length
          some ⟨rest2.drop (min p (rest2.length - 1))⟩
      | _ => none
    else none
  | _ => none

/-- Split the captured tags text on commas, trim each piece, drop empties. -/
def parseTagPieces (raw : String) : List String :=
  ((splitOnChar ',' raw).map jsTrim).filter (fun t => t.length > 0)

/-- The pre-heading loop: tags collected from the lines before bodyStart. -/
def collectTags : List String → List String
  | [] => []
  | l :: rest =>
    (match tagMatch l with
     | some raw => parseTagPieces raw
     | none => []) ++ collectTags rest

/-- The body loop: from bodyStart on, tag lines are extracted into tags and
excluded from the body; all other lines are kept. Returns (tags, bodyLines). -/
def splitBody : List String → List String × List String
  | [] => ([], [])
  | l :: rest =>
    let r := splitBody rest
    match tagMatch l with
    | some raw => (parseTagPieces raw ++ r.1, r.2)
    | none => (r.1, l :: r.2)

structure ParsedCard where
  title : String
  body : String
  tags : List String
deriving DecidableEq

/-- The Card Parser, parseMarkdown(content, fallbackTitle). -/
def parseMarkdown (content : String) (fallbackTitle : String) : ParsedCard :=
  let lines := splitLines content
  let defaultTitle := stripMdExt fallbackTitle
  let hd := findHeading lines
  let title :=
    match hd with
    | some (_, t) => if t = "" then defaultTitle else t
    | none => defaultTitle
  let bodyStart :=
    match hd with
    | some (bs, _) => bs
    | none => 0
  let preTags := collectTags (lines.take bodyStart)
  let post := splitBody (lines.drop bodyStart)
  { title := title
    body := jsTrim (String.intercalate "\n" post.2)
    tags := preTags ++ post.1 }

/- Path model shared by Board Builder and Move Executor. -/

def joinPath (base : String) (seg : String) : String := base ++ "/" ++ seg

/-- Uri.joinPath with a parent-directory segment: drop the last path segment. -/
def parentPath (p : String) : String :=
  String.intercalate "/" ((splitOnChar '/' p).dropLast)

/-- cardUri.path split on slashes, last element (empty when the path ends
with a slash), matching the pop call on the split array. -/
def lastSegment (p : String) : String := (splitOnChar '/' p).getLastD ""

/- Move Executor. -/

inductive RenameError where
  | sourceMissing
  | destinationExists
  | directoryMissing
deriving DecidableEq

structure MoveFS where
  files : List (String × String)
  dirs : List String
deriving DecidableEq

def fileExists (fs : MoveFS) (p : String) : Bool := fs.files.any (fun e => e.1 == p)

def dirExists (fs : MoveFS) (p : String) : Bool := fs.dirs.any (fun d => d == p)

/-- Models the injected rename primitive (the workspace file API) at its
interface, with overwriting forbidden: the rename fails when the source file
is missing, when a file already exists at the destination, or when the
destination's parent directory does not exist; on failure the filesystem is
returned unchanged. -/
def renameFS (fs : MoveFS) (src dst : String) : MoveFS × Option RenameError :=
  if !fileExists fs src then (fs, some RenameError.sourceMissing)
  else if fileExists fs dst then (fs, some RenameError.destinationExists)
  else if !dirExists fs (parentPath dst) then (fs, some RenameError.directoryMissing)
  else ({ files := fs.files.map (fun e => if e.1 == src then (dst, e.2) else e),
          dirs := fs.dirs }, none)

/-- moveCard(kanbanUri, cardUriString, targetColumnName). The result carries
the filesystem after the call, the error propagated out of the call (none
when it resolved), and the list of rename invocations attempted. -/
def moveCard (fs : MoveFS) (kanbanUri : String) (cardUriString : String)
    (targetColumnName : String) : MoveFS × Option RenameError × List (String × String) :=
  if cardUriString = "" ∨ targetColumnName = "" then (fs, none, [])
  else
    let cardUri := cardUriString
    let boardFolder := parentPath kanbanUri
    let targetColumnUri := joinPath boardFolder targetColumnName
    let fileName := lastSegment cardUri
    if fileName = "" then (fs, none, [])
    else
      let newUri := joinPath targetColumnUri fileName
      if cardUri = newUri then (fs, none, [])
      else
        let r := renameFS fs cardUri newUri
        (r.1, r.2, [(cardUri, newUri)])

/-- The derived destination locator of a move:
boardFolder/targetColumnName/leafName. -/
def newUriOf (kanbanUri cardUriString targetColumnName : String) : String :=
  joinPath (joinPath (parentPath kanbanUri) targetColumnName) (lastSegment cardUriString)

/-- The message handler's moveCard branch: it awaits moveCard and, only when
that await resolves (no raised error), proceeds to sendBoard, the
rebuild-and-push; a raised rename error propagates out of the handler and the
statements after the await do not run. The Bool records whether sendBoard ran. -/
def onMoveCardIntent (fs : MoveFS) (docUri : String) (cardUri : String)
    (targetColumn : String) : MoveFS × Option RenameError × Bool :=
  let r := moveCard fs docUri cardUri targetColumn
  match r.2.1 with
  | some e => (r.1, some e, false)
  | none => (r.1, none, true)

/- Board Builder. -/

inductive FileType where
  | unknown
  | file
  | directory
  | symbolicLink
deriving DecidableEq

structure Card where
  uri : String
  fileName : String
  title : String
  body : String
  bodyHtml : String
  tags : List String
  createdAt : Nat
deriving DecidableEq

structure Column where
  name : String
  cards : List Card
deriving DecidableEq

structure BoardData where
  columns : List Column
deriving DecidableEq

/-- The injected directory-listing / file-read / stat primitives; none models
an I/O failure of that primitive. -/
structure VFS where
  listDir : String → Option (List (String × FileType))
  readFileText : String → Option String
  statCtime : String → Option Nat

/-- An element may precede another under the comparator: the comparator does
not say greater. -/
def cmpLe (cmp : String → String → Ordering) (a b : String) : Bool :=
  !(cmp a b == Ordering.gt)

/-- The sort call: a sort under the comparator lifted through a key, ascending
(an element precedes another when the comparator does not say greater), as the
array sort with a localeCompare comparator. -/
def sortByCmp {α : Type} (key : α → String) (cmp : String → String → Ordering)
    (l : List α) : List α :=
  List.insertionSort (fun a b => cmpLe cmp (key a) (key b) = true) l

/-- The card loop of readCards: keep regular files whose lowercased name ends
in ".md"; read, parse, render, stat, assemble. Any failing primitive aborts. -/
def readCardsLoop (render : String → String) (fs : VFS) (columnUri : String) :
    List (String × FileType) → Option (List Card)
  | [] => some []
  | e :: rest =>
    if e.2 == FileType.file && lowerEndsWithMd e.1 then
      match fs.readFileText (joinPath columnUri e.1) with
      | none => none
      | some text =>
        let p := parseMarkdown text e.1
        let bodyHtml := render p.body
        match fs.statCtime (joinPath columnUri e.1) with
        | none => none
        | some ctime =>
          match readCardsLoop render fs columnUri rest with
          | none => none
          | some cards =>
            some ({ uri := joinPath columnUri e.1, fileName := e.1, title := p.title,
                    body := p.body, bodyHtml := bodyHtml, tags := p.tags,
                    createdAt := ctime } :: cards)
    else readCardsLoop render fs columnUri rest

/-- readCards(columnUri): list the column directory, build the cards,
sort them by title. -/
def readCards (cmp : String → String → Ordering) (render : String → String)
    (fs : VFS) (columnUri : String) : Option (List Card) :=
  match fs.listDir columnUri with
  | none => none
  | some entries =>
    match readCardsLoop render fs columnUri entries with
    | none => none
    | some cards => some (sortByCmp Card.title cmp cards)

/-- The column loop of buildBoard: each directory entry becomes a Column with
the cards read from it; non-directories are skipped. -/
def buildBoardLoop (cmp : String → String → Ordering) (render : String → String)
    (fs : VFS) (boardFolder : String) :
    List (String × FileType) → Option (List Column)
  | [] => some []
  | e :: rest =>
    if e.2 == FileType.directory then
      match readCards cmp render fs (joinPath boardFolder e.1) with
      | none => none
      | some cards =>
        match buildBoardLoop cmp render fs boardFolder rest with
        | none => none
        | some cols => some ({ name := e.1, cards := cards } :: cols)
    else buildBoardLoop cmp render fs boardFolder rest

/-- buildBoard(kanbanUri): list the parent folder of the anchor, build one
Column per directory entry, sort the columns by name. -/
def buildBoard (cmp : String → String → Ordering) (render : String → String)
    (fs : VFS) (kanbanUri : String) : Option BoardData :=
  let boardFolder := parentPath kanbanUri
  match fs.listDir boardFolder with
  | none => none
  | some entries =>
    match buildBoardLoop cmp render fs boardFolder entries with
    | none => none
    | some cols => some { columns := sortByCmp Column.name cmp cols }

/- Specification-side helpers used only in theorem statements. -/

/-- All tags contributed by a list of lines, in encounter order. -/
def tagsOfLines (ls : List String) : List String :=
  ls.flatMap (fun l =>
    match tagMatch l with
    | some raw => parseTagPieces raw
    | none => [])

/-- The body a list of lines yields: tag-matching lines excluded, the rest
joined with newlines and trimmed. -/
def bodyOfLines (ls : List String) : String :=
  jsTrim (String.intercalate "\n" (ls.filter (fun l => (tagMatch l).isNone)))

/-- The bodyStart index parseMarkdown uses for a given content. -/
def bodyStartOf (content : String) : Nat :=
  match findHeading (splitLines content) with
  | some (bs, _) => bs
  | none => 0

/-- Lexicographic comparison of char lists by codepoint. -/
def charListCompare : List Char → List Char → Ordering
  | [], [] => Ordering.eq
  | [], _ :: _ => Ordering.lt
  | _ :: _, [] => Ordering.gt
  | a :: as, b :: bs =>
    if a.toNat < b.toNat then Ordering.lt
    else if a.toNat = b.toNat then charListCompare as bs
    else Ordering.gt

/-- A concrete stand-in for the locale comparator: codepoint order. On the
plain ASCII names used in the examples the locale order coincides with it. -/
def codepointCompare (a b : String) : Ordering := charListCompare a.data b.data


/-- The first index whose line, after trimming, begins with hash-space. -/
def firstHeadingIdx : List String → Option Nat
  | [] => none
  | l :: rest => if headingB l then some 0 else (firstHeadingIdx rest).map (fun i => i + 1)

/- Concrete filesystems for the move examples. -/

def exMoveFS : MoveFS :=
  { files := [("/b/Todo/a.md", "hi")], dirs := ["/b", "/b/Todo", "/b/Done"] }

def exCollideFS : MoveFS :=
  { files := [("/b/Todo/a.md", "hi"), ("/b/Done/a.md", "old")],
    dirs := ["/b", "/b/Todo", "/b/Done"] }

/-- A concrete board tree: the anchor /b/x.kanban sits in /b next to the
column directories Todo and Done and a stray root file; Todo holds a card
file, a non-markdown file and a nested directory (itself holding a markdown
file, to show nested directories are never descended into). -/
def exVFS : VFS where
  listDir := fun p =>
    if p = "/b" then
      some [("Todo", FileType.directory), ("stray.md", FileType.file),
            ("Done", FileType.directory)]
    else if p = "/b/Todo" then
      some [("first.md", FileType.file), ("notes.txt", FileType.file),
            ("nested", FileType.directory)]
    else if p = "/b/Done" then some []
    else if p = "/b/Todo/nested" then some [("inner.md", FileType.file)]
    else none
  readFileText := fun p =>
    if p = "/b/Todo/first.md" then some "# First\ntags: urgent\nbody text"
    else if p = "/b/Todo/nested/inner.md" then some "# Inner"
    else none
  statCtime := fun p => if p = "/b/Todo/first.md" then some 5 else none

/-- The board exVFS builds (with the identity renderer and codepoint order):
columns Done then Todo; only first.md appears as a card. -/
def exBoard : BoardData :=
  { columns :=
      [{ name := "Done", cards := [] },
       { name := "Todo",
         cards :=
          [{ uri := "/b/Todo/first.md", fileName := "first.md", title := "First",
             body := "body text", bodyHtml := "body text", tags := ["urgent"],
             createdAt := 5 }] }] }

/- Helper lemmas about the Move Executor. -/

theorem moveCard_guard_eq (fs : MoveFS) (k c t : String)
    (h : c = "" ∨ t = "" ∨ lastSegment c = "" ∨ newUriOf k c t = c) :
    moveCard fs k c t = (fs, none, []) := by
  by_cases h1 : c = "" ∨ t = ""
  · simp [moveCard, h1]
  · push_neg at h1
    rcases h with h | h | h | h
    · exact absurd h h1.1
    · exact absurd h h1.2
    · simp [moveCard, h1.1, h1.2, h]
    · by_cases h2 : lastSegment c = ""
      · simp [moveCard, h1.1, h1.2, h2]
      · simp only [newUriOf] at h
        simp [moveCard, h1.1, h1.2, h2, h]

theorem moveCard_active_eq (fs : MoveFS) (k c t : String)
    (hc : ¬ c = "") (ht : ¬ t = "") (hl : ¬ lastSegment c = "")
    (hn : ¬ newUriOf k c t = c) :
    moveCard fs k c t =
      ((renameFS fs c (newUriOf k c t)).1, (renameFS fs c (newUriOf k c t)).2,
        [(c, newUriOf k c t)]) := by
  have hn2 : ¬ (c = joinPath (joinPath (parentPath k) t) (lastSegment c)) := by
    simpa [newUriOf, eq_comm] using hn
  have hg : ¬ (c = "" ∨ t = "") := by simp [hc, ht]
  simp [moveCard, hg, hl, hn2, newUriOf]

theorem renameFS_fail (fs : MoveFS) (src dst : String)
    (h : fileExists fs dst = true ∨ dirExists fs (parentPath dst) = false) :
    (renameFS fs src dst).1 = fs ∧ (renameFS fs src dst).2.isSome = true := by
  by_cases h1 : fileExists fs src = true
  · rcases h with h | h
    · simp [renameFS, h1, h]
    · by_cases h2 : fileExists fs dst = true
      · simp [renameFS, h1, h2]
      · simp [renameFS, h1, h2, h]
  · simp [renameFS, h1]

/- C1 -/

/-- C1 counterexample: a moveCard intent whose move raises an error (destination
already occupied) does not trigger rebuild-and-push: the handler stops at the
failed await and sendBoard never runs, refuting the unconditional-rebuild claim. -/
theorem moveIntent_error_skips_rebuild :
    (onMoveCardIntent exCollideFS "/b/board.kanban" "/b/Todo/a.md" "Done").2.1 =
        some RenameError.destinationExists ∧
    (onMoveCardIntent exCollideFS "/b/board.kanban" "/b/Todo/a.md" "Done").2.2 = false := by
  decide

/-- C1 (amended): on a moveCard intent the handler first delegates to the Move
Executor; rebuild-and-push then runs exactly when the move resolved without an
error (success or no-op); a raised error propagates and skips the rebuild. -/
theorem moveIntent_rebuild_iff_no_error :
    ∀ (fs : MoveFS) (d c t : String),
      (onMoveCardIntent fs d c t).1 = (moveCard fs d c t).1 ∧
      (onMoveCardIntent fs d c t).2.1 = (moveCard fs d c t).2.1 ∧
      ((onMoveCardIntent fs d c t).2.2 = true ↔ (moveCard fs d c t).2.1 = none) := by
  intro fs d c t
  unfold onMoveCardIntent
  rcases h : (moveCard fs d c t).2.1 with _ | e <;> simp [h]

/- C2 -/

/-- C2: when the move reaches its rename (non-empty locator and column, a leaf
name, destination differing from source) and a file already exists at the
derived destination, or the destination directory (the target column) is
missing, then the rename is attempted (exactly one attempt, with overwriting
forbidden), the move surfaces an error to its caller, and the filesystem is
left unchanged. -/
theorem moveCard_collision_or_missing_dir_fails (fs : MoveFS) (k c t : String)
    (hc : ¬ c = "") (ht : ¬ t = "") (hl : ¬ lastSegment c = "")
    (hn : ¬ newUriOf k c t = c)
    (h : fileExists fs (newUriOf k c t) = true ∨
         dirExists fs (parentPath (newUriOf k c t)) = false) :
    (moveCard fs k c t).2.2 = [(c, newUriOf k c t)] ∧
    (moveCard fs k c t).2.1.isSome = true ∧
    (moveCard fs k c t).1 = fs := by
  have hm := moveCard_active_eq fs k c t hc ht hl hn
  have hr := renameFS_fail fs c (newUriOf k c t) h
  rw [hm]
  exact ⟨rfl, hr.2, hr.1⟩

/-- C2 witness: concrete collision (Done/a.md already exists). -/
theorem moveCard_collision_fails_concrete :
    (moveCard exCollideFS "/b/board.kanban" "/b/Todo/a.md" "Done").2.2 =
      [("/b/Todo/a.md", newUriOf "/b/board.kanban" "/b/Todo/a.md" "Done")] ∧
    (moveCard exCollideFS "/b/board.kanban" "/b/Todo/a.md" "Done").2.1.isSome = true ∧
    (moveCard exCollideFS "/b/board.kanban" "/b/Todo/a.md" "Done").1 = exCollideFS :=
  moveCard_collision_or_missing_dir_fails exCollideFS "/b/board.kanban" "/b/Todo/a.md"
    "Done" (by decide) (by decide) (by decide) (by decide) (Or.inl (by decide))

/- C3 -/

/-- C3 counterexample: a move with non-empty locator and column name whose
derived destination differs from the source, yet zero renames are performed —
the locator ends in a slash, so the leaf check no-ops first; the claim's
premise set wrongly includes such inputs. -/
theorem moveCard_exactly_one_rename_refuted :
    ¬ ("/b/Todo/" = "") ∧ ¬ ("Done" = "") ∧
    ¬ (newUriOf "/b/board.kanban" "/b/Todo/" "Done" = "/b/Todo/") ∧
    (moveCard exMoveFS "/b/board.kanban" "/b/Todo/" "Done").2.2 = [] := by
  decide

/-- C3: when both arguments are non-empty, a leaf name exists and the derived
destination differs from the source, moveCard performs exactly one rename, from
the source locator to that destination; in every other case it performs none;
concretely, moving Todo/a.md to column Done leaves a file at Done/a.md and none
at Todo/a.md. -/
theorem moveCard_exactly_one_rename :
    (∀ (fs : MoveFS) (k c t : String), ¬ c = "" → ¬ t = "" → ¬ lastSegment c = "" →
        ¬ newUriOf k c t = c →
        (moveCard fs k c t).2.2 = [(c, newUriOf k c t)]) ∧
    (∀ (fs : MoveFS) (k c t : String),
        c = "" ∨ t = "" ∨ lastSegment c = "" ∨ newUriOf k c t = c →
        (moveCard fs k c t).2.2 = []) ∧
    moveCard exMoveFS "/b/board.kanban" "/b/Todo/a.md" "Done" =
      ({ files := [("/b/Done/a.md", "hi")], dirs := ["/b", "/b/Todo", "/b/Done"] }, none,
        [("/b/Todo/a.md", "/b/Done/a.md")]) ∧
    fileExists (moveCard exMoveFS "/b/board.kanban" "/b/Todo/a.md" "Done").1
      "/b/Done/a.md" = true ∧
    fileExists (moveCard exMoveFS "/b/board.kanban" "/b/Todo/a.md" "Done").1
      "/b/Todo/a.md" = false := by
  refine ⟨fun fs k c t hc ht hl hn => ?_, fun fs k c t h => ?_, by decide, by decide, by decide⟩
  · rw [moveCard_active_eq fs k c t hc ht hl hn]
  · rw [moveCard_guard_eq fs k c t h]

/-- C3 witness: the active case applied at the concrete Todo-to-Done move. -/
theorem moveCard_exactly_one_rename_concrete :
    (moveCard exMoveFS "/b/board.kanban" "/b/Todo/a.md" "Done").2.2 =
      [("/b/Todo/a.md", newUriOf "/b/board.kanban" "/b/Todo/a.md" "Done")] :=
  moveCard_exactly_one_rename.1 exMoveFS "/b/board.kanban" "/b/Todo/a.md" "Done"
    (by decide) (by decide) (by decide) (by decide)

/- C4 -/

/-- C4: a move with an empty card locator, an empty target column name, or a
derived destination equal to the source is a silent no-op: filesystem
unchanged, no error, no rename. -/
theorem moveCard_malformed_or_same_noop (fs : MoveFS) (k c t : String)
    (h : c = "" ∨ t = "" ∨ newUriOf k c t = c) :
    moveCard fs k c t = (fs, none, []) := by
  apply moveCard_guard_eq
  rcases h with h | h | h
  · exact Or.inl h
  · exact Or.inr (Or.inl h)
  · exact Or.inr (Or.inr (Or.inr h))

/-- C4 witness: empty card locator. -/
theorem moveCard_malformed_noop_concrete :
    moveCard exMoveFS "/b/board.kanban" "" "Done" = (exMoveFS, none, []) :=
  moveCard_malformed_or_same_noop exMoveFS "/b/board.kanban" "" "Done" (Or.inl rfl)

/- C9 -/

/-- C9: a move whose card locator ends in a slash (empty final path segment, so
no leaf file name can be extracted) is a silent no-op even with both arguments
non-empty: no rename, no error. -/
theorem moveCard_empty_leaf_noop (fs : MoveFS) (k c t : String)
    (hc : ¬ c = "") (ht : ¬ t = "") (h : lastSegment c = "") :
    moveCard fs k c t = (fs, none, []) :=
  moveCard_guard_eq fs k c t (Or.inr (Or.inr (Or.inl h)))

/-- C9 witness: trailing-slash locator. -/
theorem moveCard_empty_leaf_noop_concrete :
    moveCard exMoveFS "/b/board.kanban" "/b/Todo/" "Done" = (exMoveFS, none, []) :=
  moveCard_empty_leaf_noop exMoveFS "/b/board.kanban" "/b/Todo/" "Done"
    (by decide) (by decide) (by decide)

/- Helper lemmas about the Card Parser. -/

theorem collectTags_eq (ls : List String) : collectTags ls = tagsOfLines ls := by
  induction ls with
  | nil => rfl
  | cons l rest ih =>
    cases h : tagMatch l <;> simp [collectTags, tagsOfLines, h, ih]

theorem splitBody_eq (ls : List String) :
    splitBody ls = (tagsOfLines ls, ls.filter (fun l => (tagMatch l).isNone)) := by
  induction ls with
  | nil => rfl
  | cons l rest ih =>
    cases h : tagMatch l <;>
      simp [splitBody, tagsOfLines, h, ih, List.filter_cons]

theorem tagsOfLines_take_drop (n : Nat) (ls : List String) :
    tagsOfLines (ls.take n) ++ tagsOfLines (ls.drop n) = tagsOfLines ls := by
  rw [tagsOfLines, tagsOfLines, tagsOfLines, ← List.flatMap_append, List.take_append_drop]

theorem findHeading_eq (ls : List String) :
    findHeading ls =
      (firstHeadingIdx ls).map (fun i => (i + 1, headingTitleOf (ls.getD i ""))) := by
  induction ls with
  | nil => rfl
  | cons l rest ih =>
    by_cases h : headingB l
    · simp [findHeading, firstHeadingIdx, h]
    · cases hf : firstHeadingIdx rest <;>
        simp [findHeading, firstHeadingIdx, h, ih, hf]

theorem parseMarkdown_eq (content fb : String) :
    parseMarkdown content fb =
      { title :=
          match firstHeadingIdx (splitLines content) with
          | some i =>
            if headingTitleOf ((splitLines content).getD i "") = "" then stripMdExt fb
            else headingTitleOf ((splitLines content).getD i "")
          | none => stripMdExt fb
        body := bodyOfLines ((splitLines content).drop (bodyStartOf content))
        tags := tagsOfLines (splitLines content) } := by
  cases hf : firstHeadingIdx (splitLines content) with
  | none =>
    have h2 : findHeading (splitLines content) = none := by
      rw [findHeading_eq, hf]; rfl
    simp [parseMarkdown, bodyStartOf, bodyOfLines, h2, collectTags_eq, splitBody_eq,
      tagsOfLines, hf]
  | some i =>
    have h2 : findHeading (splitLines content) =
        some (i + 1, headingTitleOf ((splitLines content).getD i "")) := by
      rw [findHeading_eq, hf]; rfl
    simp [parseMarkdown, bodyStartOf, bodyOfLines, h2, collectTags_eq, splitBody_eq,
      tagsOfLines_take_drop, hf]

/- C5 -/

/-- C5: the first line whose trimmed form begins with hash-space is the title
source: the title is that line with the marker stripped and trimmed, or the
fallback name (extension stripped) when that remainder is empty; the body is
built from the lines after it (later hash lines are kept as plain body text,
only tag lines are excluded); when no heading line exists the title is the
fallback name (extension stripped) and the body is built from all the lines. -/
theorem parseMarkdown_title_heading : ∀ (content fb : String),
    (∀ i, firstHeadingIdx (splitLines content) = some i →
      (parseMarkdown content fb).title =
        (if headingTitleOf ((splitLines content).getD i "") = "" then stripMdExt fb
         else headingTitleOf ((splitLines content).getD i "")) ∧
      (parseMarkdown content fb).body =
        bodyOfLines ((splitLines content).drop (i + 1))) ∧
    (firstHeadingIdx (splitLines content) = none →
      (parseMarkdown content fb).title = stripMdExt fb ∧
      (parseMarkdown content fb).body = bodyOfLines (splitLines content)) := by
  intro content fb
  constructor
  · intro i hi
    have hb : bodyStartOf content = i + 1 := by
      rw [bodyStartOf, findHeading_eq, hi]
      rfl
    rw [parseMarkdown_eq, hi, hb]
    exact ⟨rfl, rfl⟩
  · intro hn
    have hb : bodyStartOf content = 0 := by
      rw [bodyStartOf, findHeading_eq, hn]
      rfl
    rw [parseMarkdown_eq, hn, hb]
    exact ⟨rfl, rfl⟩

/-- C5 witness: heading at index 1, with a later hash line kept in the body. -/
theorem parseMarkdown_title_heading_concrete :
    (parseMarkdown "x\n# Hello \n# Second\ntags: a\nrest" "note.md").title =
      (if headingTitleOf ((splitLines "x\n# Hello \n# Second\ntags: a\nrest").getD 1 "") = ""
       then stripMdExt "note.md"
       else headingTitleOf ((splitLines "x\n# Hello \n# Second\ntags: a\nrest").getD 1 "")) ∧
    (parseMarkdown "x\n# Hello \n# Second\ntags: a\nrest" "note.md").body =
      bodyOfLines ((splitLines "x\n# Hello \n# Second\ntags: a\nrest").drop (1 + 1)) :=
  (parseMarkdown_title_heading "x\n# Hello \n# Second\ntags: a\nrest" "note.md").1 1
    (by decide)

/- C6 -/

/-- C6: every line matching the tags pattern, before or after the heading,
contributes its comma-split, trimmed, nonempty pieces to the returned tags in
encounter order without deduplication, and every matching line is excluded
from the body; concretely a "tags: x, y , z" line yields the tags x, y, z
whether it follows or precedes the heading, and never appears in the body. -/
theorem parseMarkdown_tags_collection : ∀ (content fb : String),
    (parseMarkdown content fb).tags = tagsOfLines (splitLines content) ∧
    (parseMarkdown content fb).body =
      bodyOfLines ((splitLines content).drop (bodyStartOf content)) ∧
    parseMarkdown "# T\ntags: x, y , z\nafter" "f.md" =
      { title := "T", body := "after", tags := ["x", "y", "z"] } ∧
    parseMarkdown "tags: x, y , z\n# T\nafter" "f.md" =
      { title := "T", body := "after", tags := ["x", "y", "z"] } := by
  intro content fb
  refine ⟨?_, ?_, by decide, by decide⟩ <;> rw [parseMarkdown_eq]

/- C10 -/

/-- C10: the tags pattern is anchored at the start of the untrimmed line, so a
line with leading whitespace before the tags key never matches: it contributes
no tags and is kept in the body; heading detection, by contrast, trims the
line first (a whitespace-indented heading is still recognized). -/
theorem tagMatch_anchored_untrimmed :
    (∀ (l : String) (c : Char) (cs : List Char), l.data = c :: cs →
        isJsWhitespace c = true → tagMatch l = none) ∧
    (∀ (ls : List String) (l : String), l ∈ ls → (tagMatch l).isNone = true →
        l ∈ (splitBody ls).2) ∧
    parseMarkdown "# T\nx\n tags: a\ny" "f.md" =
      { title := "T", body := "x\n tags: a\ny", tags := [] } ∧
    parseMarkdown "   # H\nb" "f.md" = { title := "H", body := "b", tags := [] } := by
  refine ⟨?_, ?_, by decide, by decide⟩
  · intro l c cs hdata hws
    obtain ⟨d⟩ := l
    simp only [String.data] at hdata
    subst hdata
    have hT : (c == 'T') = false := by
      refine beq_eq_false_iff_ne.mpr ?_
      intro h; subst h; exact absurd hws (by decide)
    have ht : (c == 't') = false := by
      refine beq_eq_false_iff_ne.mpr ?_
      intro h; subst h; exact absurd hws (by decide)
    cases cs with
    | nil => rfl
    | cons a cs2 =>
      cases cs2 with
      | nil => rfl
      | cons g cs3 =>
        cases cs3 with
        | nil => rfl
        | cons s cs4 => simp [tagMatch, hT, ht]
  · intro ls l hmem hnone
    rw [splitBody_eq]
    exact List.mem_filter.mpr ⟨hmem, hnone⟩

/-- C10 witness: a leading space defeats the tags pattern. -/
theorem tagMatch_anchored_untrimmed_concrete :
    tagMatch " tags: a" = none :=
  tagMatch_anchored_untrimmed.1 " tags: a" ' ' "tags: a".data (by decide) (by decide)

/- Helper lemmas about the Board Builder. -/

theorem exBoard_eval :
    buildBoard codepointCompare (fun s => s) exVFS "/b/x.kanban" = some exBoard := by
  decide

theorem sortByCmp_perm {α : Type} (key : α → String) (cmp : String → String → Ordering)
    (l : List α) : (sortByCmp key cmp l).Perm l :=
  List.perm_insertionSort _ l

theorem sortByCmp_sorted {α : Type} (key : α → String) (cmp : String → String → Ordering)
    (htrans : ∀ a b c : String,
      cmpLe cmp a b = true → cmpLe cmp b c = true → cmpLe cmp a c = true)
    (htotal : ∀ a b : String, cmpLe cmp a b = true ∨ cmpLe cmp b a = true)
    (l : List α) :
    (sortByCmp key cmp l).Pairwise (fun a b => cmpLe cmp (key a) (key b) = true) := by
  haveI : IsTotal α (fun a b => cmpLe cmp (key a) (key b) = true) :=
    ⟨fun a b => htotal (key a) (key b)⟩
  haveI : IsTrans α (fun a b => cmpLe cmp (key a) (key b) = true) :=
    ⟨fun a b c => htrans (key a) (key b) (key c)⟩
  exact List.sorted_insertionSort _ l

theorem readCardsLoop_fileNames (render : String → String) (fs : VFS) (u : String) :
    ∀ (entries : List (String × FileType)) (cards : List Card),
      readCardsLoop render fs u entries = some cards →
      cards.map Card.fileName =
        (entries.filter (fun e => e.2 == FileType.file && lowerEndsWithMd e.1)).map
          Prod.fst := by
  intro entries
  induction entries with
  | nil =>
    intro cards h
    simp only [readCardsLoop, Option.some.injEq] at h
    subst h
    rfl
  | cons e rest ih =>
    intro cards h
    by_cases hc : (e.2 == FileType.file && lowerEndsWithMd e.1) = true
    · simp only [readCardsLoop, hc, if_true] at h
      cases h1 : fs.readFileText (joinPath u e.1) with
      | none => rw [h1] at h; cases h
      | some text =>
        rw [h1] at h
        cases h2 : fs.statCtime (joinPath u e.1) with
        | none => rw [h2] at h; cases h
        | some ctime =>
          rw [h2] at h
          cases h3 : readCardsLoop render fs u rest with
          | none => rw [h3] at h; cases h
          | some cards0 =>
            rw [h3] at h
            injection h with h
            subst h
            simp [List.filter_cons, hc, ih cards0 h3]
    · simp only [readCardsLoop, hc, if_false] at h
      simp [List.filter_cons, hc, ih cards h]

theorem buildBoardLoop_names (cmp : String → String → Ordering)
    (render : String → String) (fs : VFS) (bf : String) :
    ∀ (entries : List (String × FileType)) (cols : List Column),
      buildBoardLoop cmp render fs bf entries = some cols →
      cols.map Column.name =
        (entries.filter (fun e => e.2 == FileType.directory)).map Prod.fst := by
  intro entries
  induction entries with
  | nil =>
    intro cols h
    simp only [buildBoardLoop, Option.some.injEq] at h
    subst h
    rfl
  | cons e rest ih =>
    intro cols h
    by_cases hc : (e.2 == FileType.directory) = true
    · simp only [buildBoardLoop, hc, if_true] at h
      cases h1 : readCards cmp render fs (joinPath bf e.1) with
      | none => rw [h1] at h; cases h
      | some cards =>
        rw [h1] at h
        cases h2 : buildBoardLoop cmp render fs bf rest with
        | none => rw [h2] at h; cases h
        | some cols0 =>
          rw [h2] at h
          injection h with h
          subst h
          simp [List.filter_cons, hc, ih cols0 h2]
    · simp only [buildBoardLoop, hc, if_false] at h
      simp [List.filter_cons, hc, ih cols h]

theorem buildBoardLoop_mem (cmp : String → String → Ordering)
    (render : String → String) (fs : VFS) (bf : String) :
    ∀ (entries : List (String × FileType)) (cols : List Column),
      buildBoardLoop cmp render fs bf entries = some cols →
      ∀ col ∈ cols, readCards cmp render fs (joinPath bf col.name) = some col.cards := by
  intro entries
  induction entries with
  | nil =>
    intro cols h
    simp only [buildBoardLoop, Option.some.injEq] at h
    subst h
    intro col hcol
    cases hcol
  | cons e rest ih =>
    intro cols h
    by_cases hc : (e.2 == FileType.directory) = true
    · simp only [buildBoardLoop, hc, if_true] at h
      cases h1 : readCards cmp render fs (joinPath bf e.1) with
      | none => rw [h1] at h; cases h
      | some cards =>
        rw [h1] at h
        cases h2 : buildBoardLoop cmp render fs bf rest with
        | none => rw [h2] at h; cases h
        | some cols0 =>
          rw [h2] at h
          injection h with h
          subst h
          intro col hcol
          rcases List.mem_cons.mp hcol with hcol | hcol
          · subst hcol
            exact h1
          · exact ih cols0 h2 col hcol
    · simp only [buildBoardLoop, hc, if_false] at h
      exact ih cols h

theorem buildBoardLoop_no_dirs (cmp : String → String → Ordering)
    (render : String → String) (fs : VFS) (bf : String) :
    ∀ entries : List (String × FileType),
      entries.filter (fun e => e.2 == FileType.directory) = [] →
      buildBoardLoop cmp render fs bf entries = some [] := by
  intro entries
  induction entries with
  | nil => intro _; rfl
  | cons e rest ih =>
    intro h
    rw [List.filter_cons] at h
    by_cases hc : (e.2 == FileType.directory) = true
    · rw [if_pos hc] at h
      cases h
    · rw [if_neg hc] at h
      simp only [buildBoardLoop, hc, if_false]
      exact ih h

theorem buildBoard_eq_some (cmp : String → String → Ordering) (render : String → String)
    (fs : VFS) (k : String) (entries : List (String × FileType)) (board : BoardData)
    (hl : fs.listDir (parentPath k) = some entries)
    (hb : buildBoard cmp render fs k = some board) :
    ∃ cols, buildBoardLoop cmp render fs (parentPath k) entries = some cols ∧
      board = { columns := sortByCmp Column.name cmp cols } := by
  simp only [buildBoard, hl] at hb
  cases hloop : buildBoardLoop cmp render fs (parentPath k) entries with
  | none => simp only [hloop] at hb; exact Option.noConfusion hb
  | some cols =>
    simp only [hloop, Option.some.injEq] at hb
    exact ⟨cols, rfl, hb.symm⟩

theorem readCards_eq_some (cmp : String → String → Ordering) (render : String → String)
    (fs : VFS) (u : String) (cards : List Card)
    (h : readCards cmp render fs u = some cards) :
    ∃ listing cards0, fs.listDir u = some listing ∧
      readCardsLoop render fs u listing = some cards0 ∧
      cards = sortByCmp Card.title cmp cards0 := by
  cases h1 : fs.listDir u with
  | none => simp only [readCards, h1] at h; exact Option.noConfusion h
  | some listing =>
    simp only [readCards, h1] at h
    cases h2 : readCardsLoop render fs u listing with
    | none => simp only [h2] at h; exact Option.noConfusion h
    | some cards0 =>
      simp only [h2, Option.some.injEq] at h
      exact ⟨listing, cards0, rfl, h2, h.symm⟩

/- Order facts about the codepoint comparator. -/

theorem charListCompare_not_gt_trans :
    ∀ xs ys zs : List Char, charListCompare xs ys ≠ Ordering.gt →
      charListCompare ys zs ≠ Ordering.gt → charListCompare xs zs ≠ Ordering.gt := by
  intro xs
  induction xs with
  | nil =>
    intro ys zs h1 h2
    cases zs <;> simp [charListCompare]
  | cons a as ih =>
    intro ys zs h1 h2
    cases ys with
    | nil => simp [charListCompare] at h1
    | cons b bs =>
      cases zs with
      | nil => simp [charListCompare] at h2
      | cons c cs =>
        simp only [charListCompare] at h1 h2 ⊢
        by_cases hab : a.toNat < b.toNat
        · by_cases hbc : b.toNat < c.toNat
          · have hac : a.toNat < c.toNat := lt_trans hab hbc
            simp [hac]
          · by_cases hbc2 : b.toNat = c.toNat
            · have hac : a.toNat < c.toNat := hbc2 ▸ hab
              simp [hac]
            · simp [hbc, hbc2] at h2
        · by_cases hab2 : a.toNat = b.toNat
          · rw [if_neg hab, if_pos hab2] at h1
            by_cases hbc : b.toNat < c.toNat
            · have hac : a.toNat < c.toNat := hab2 ▸ hbc
              simp [hac]
            · by_cases hbc2 : b.toNat = c.toNat
              · have hac : a.toNat = c.toNat := hab2.trans hbc2
                have hlt : ¬ a.toNat < c.toNat := by omega
                rw [if_neg hbc, if_pos hbc2] at h2
                simp [hlt, hac]
                exact ih bs cs h1 h2
              · simp [hbc, hbc2] at h2
          · simp [hab, hab2] at h1

theorem charListCompare_not_gt_total :
    ∀ xs ys : List Char, charListCompare xs ys ≠ Ordering.gt ∨
      charListCompare ys xs ≠ Ordering.gt := by
  intro xs
  induction xs with
  | nil =>
    intro ys
    left
    cases ys <;> simp [charListCompare]
  | cons a as ih =>
    intro ys
    cases ys with
    | nil =>
      right
      simp [charListCompare]
    | cons b bs =>
      by_cases hab : a.toNat < b.toNat
      · left
        have hba : ¬ b.toNat < a.toNat := by omega
        simp [charListCompare, hab]
      · by_cases hab2 : a.toNat = b.toNat
        · have hba : ¬ b.toNat < a.toNat := by omega
          rcases ih bs with h | h
          · left
            simp [charListCompare, hab, hab2, h]
          · right
            simp [charListCompare, hba, hab2.symm, h]
        · right
          have hba : b.toNat < a.toNat := by omega
          simp [charListCompare, hba]

theorem cmpLe_codepoint_iff (a b : String) :
    cmpLe codepointCompare a b = true ↔ charListCompare a.data b.data ≠ Ordering.gt := by
  cases h : charListCompare a.data b.data <;>
    simp [cmpLe, codepointCompare, h] <;> decide

theorem codepointCompare_le_trans :
    ∀ a b c : String, cmpLe codepointCompare a b = true →
      cmpLe codepointCompare b c = true → cmpLe codepointCompare a c = true := by
  intro a b c h1 h2
  rw [cmpLe_codepoint_iff] at h1 h2 ⊢
  exact charListCompare_not_gt_trans a.data b.data c.data h1 h2

theorem codepointCompare_le_total :
    ∀ a b : String, cmpLe codepointCompare a b = true ∨
      cmpLe codepointCompare b a = true := by
  intro a b
  rw [cmpLe_codepoint_iff, cmpLe_codepoint_iff]
  exact charListCompare_not_gt_total a.data b.data

/- C7 -/

/-- C7: a built Board's columns are exactly the directory entries of the board
folder (the anchor's parent) and each column's cards are exactly the regular
files in that column directory named with a case-insensitive .md suffix; a
listing with no subdirectories yields an empty column sequence rather than an
error; concretely, a stray file in the board root, a notes.txt inside a
column, and the contents of a nested directory never appear in the Board. -/
theorem buildBoard_exact_membership (cmp : String → String → Ordering)
    (render : String → String) (fs : VFS) (k : String)
    (entries : List (String × FileType)) (board : BoardData)
    (hl : fs.listDir (parentPath k) = some entries)
    (hb : buildBoard cmp render fs k = some board) :
    (board.columns.map Column.name).Perm
      ((entries.filter (fun e => e.2 == FileType.directory)).map Prod.fst) ∧
    (∀ col ∈ board.columns, ∃ listing cards0,
        fs.listDir (joinPath (parentPath k) col.name) = some listing ∧
        readCardsLoop render fs (joinPath (parentPath k) col.name) listing =
          some cards0 ∧
        (col.cards.map Card.fileName).Perm
          ((listing.filter
              (fun e => e.2 == FileType.file && lowerEndsWithMd e.1)).map Prod.fst)) ∧
    (entries.filter (fun e => e.2 == FileType.directory) = [] →
        buildBoard cmp render fs k = some { columns := [] }) ∧
    buildBoard codepointCompare (fun s => s) exVFS "/b/x.kanban" = some exBoard := by
  obtain ⟨cols, hloop, hcols⟩ := buildBoard_eq_some cmp render fs k entries board hl hb
  subst hcols
  refine ⟨?_, ?_, ?_, exBoard_eval⟩
  · have hperm := (sortByCmp_perm Column.name cmp cols).map Column.name
    rw [buildBoardLoop_names cmp render fs (parentPath k) entries cols hloop] at hperm
    exact hperm
  · intro col hcol
    have hmem : col ∈ cols := (sortByCmp_perm Column.name cmp cols).mem_iff.mp hcol
    have hrc := buildBoardLoop_mem cmp render fs (parentPath k) entries cols hloop col hmem
    obtain ⟨listing, cards0, hld, hrl, hcards⟩ := readCards_eq_some _ _ _ _ _ hrc
    refine ⟨listing, cards0, hld, hrl, ?_⟩
    rw [hcards]
    have hperm2 := (sortByCmp_perm Card.title cmp cards0).map Card.fileName
    rw [readCardsLoop_fileNames render fs _ listing cards0 hrl] at hperm2
    exact hperm2
  · intro hfd
    have hloop0 := buildBoardLoop_no_dirs cmp render fs (parentPath k) entries hfd
    simp only [buildBoard, hl, hloop0]
    rfl

/-- C7 witness: the columns of the concrete board are exactly the directory
entries of its root listing. -/
theorem buildBoard_exact_membership_concrete :
    (exBoard.columns.map Column.name).Perm
      (([("Todo", FileType.directory), ("stray.md", FileType.file),
         ("Done", FileType.directory)].filter
           (fun e => e.2 == FileType.directory)).map Prod.fst) :=
  (buildBoard_exact_membership codepointCompare (fun s => s) exVFS "/b/x.kanban"
    [("Todo", FileType.directory), ("stray.md", FileType.file),
     ("Done", FileType.directory)] exBoard (by decide) exBoard_eval).1

/- C8 -/

/-- C8: for any comparator whose not-greater relation is transitive and total
(as localeCompare's is), a built Board's columns are sorted ascending by name
and each column's cards are sorted ascending by title under that comparator;
concretely, columns named Done and Todo come out in the order Done, Todo. -/
theorem buildBoard_sorted_order (cmp : String → String → Ordering)
    (render : String → String) (fs : VFS) (k : String) (board : BoardData)
    (hb : buildBoard cmp render fs k = some board)
    (htrans : ∀ a b c : String,
      cmpLe cmp a b = true → cmpLe cmp b c = true → cmpLe cmp a c = true)
    (htotal : ∀ a b : String, cmpLe cmp a b = true ∨ cmpLe cmp b a = true) :
    board.columns.Pairwise (fun x y => cmpLe cmp x.name y.name = true) ∧
    (∀ col ∈ board.columns,
      col.cards.Pairwise (fun x y => cmpLe cmp x.title y.title = true)) ∧
    buildBoard codepointCompare (fun s => s) exVFS "/b/x.kanban" = some exBoard := by
  cases hl : fs.listDir (parentPath k) with
  | none => simp only [buildBoard, hl] at hb; exact Option.noConfusion hb
  | some entries =>
    obtain ⟨cols, hloop, hcols⟩ := buildBoard_eq_some cmp render fs k entries board hl hb
    subst hcols
    refine ⟨sortByCmp_sorted Column.name cmp htrans htotal cols, ?_, exBoard_eval⟩
    intro col hcol
    have hmem : col ∈ cols := (sortByCmp_perm Column.name cmp cols).mem_iff.mp hcol
    have hrc := buildBoardLoop_mem cmp render fs (parentPath k) entries cols hloop col hmem
    obtain ⟨listing, cards0, hld, hrl, hcards⟩ := readCards_eq_some _ _ _ _ _ hrc
    rw [hcards]
    exact sortByCmp_sorted Card.title cmp htrans htotal cards0

/-- C8 witness: the concrete board's columns are sorted under the codepoint
comparator. -/
theorem buildBoard_sorted_order_concrete :
    exBoard.columns.Pairwise
      (fun x y => cmpLe codepointCompare x.name y.name = true) :=
  (buildBoard_sorted_order codepointCompare (fun s => s) exVFS "/b/x.kanban" exBoard
    exBoard_eval codepointCompare_le_trans codepointCompare_le_total).1

end KanbanFS
